import Mathlib

/-!
Verification of the sample-construction pipeline in
`src/cultionet/data/create.py`.

Arrays are embedded as total functions `ℕ → ℕ → α` together with explicit
dimensions `h w : ℕ` (row-major, index `(i, j)` with `0 ≤ i < h`,
`0 ≤ j < w`).  Machine floats are embedded as `ℚ`; the IEEE special values
produced by degenerate divisions are modelled by the explicit `NpVal`
carrier below.  External library collaborators (the scipy connected
component labeller `nd_label`, the skimage `regionprops` descriptors, the
cv2 distance transform, the file store read by `torch.load`) are passed in
as parameters or re-expressed by their documented output, as noted at each
definition.
-/

/-- Python constant `CROP_CLASS = 1` from create.py. -/
def CROP_CLASS : ℕ := 1

/-- Python constant `EDGE_CLASS = 2` from create.py. -/
def EDGE_CLASS : ℕ := 2

/-- Embedding of `np.pad(arr, pad_width=((k, k), (k, k)), mode='edge')` for an
`h × w` array: the padded array has shape `(h+2k) × (w+2k)` and replicates the
nearest edge value.  Natural-number truncated subtraction performs the lower
clamp and `min` the upper clamp. -/
def np_pad_edge {α : Type} (k h w : ℕ) (arr : ℕ → ℕ → α) : ℕ → ℕ → α :=
  fun i j => arr (min (i - k) (h - 1)) (min (j - k) (w - 1))

/-- Embedding of `np.roll(a, (s0, s1), axis=(0, 1))` on an `H × W` array:
element `(i, j)` of the result is element `((i - s0) mod H, (j - s1) mod W)`
of the input. -/
def np_roll {α : Type} (H W : ℕ) (a : ℕ → ℕ → α) (s0 s1 : ℤ) : ℕ → ℕ → α :=
  fun i j => a (((i : ℤ) - s0) % (H : ℤ)).toNat (((j : ℤ) - s1) % (W : ℤ)).toNat

/-- Embedding of create.py `roll`: rolls the 1-padded array and slices off the
padded border (`[1:-1, 1:-1]`), for an original array of shape `h × w`. -/
def roll_slice {α : Type} (h w : ℕ) (arr_pad : ℕ → ℕ → α) (s0 s1 : ℤ) : ℕ → ℕ → α :=
  fun i j => np_roll (h + 2) (w + 2) arr_pad s0 s1 (i + 1) (j + 1)

/-- Embedding of `focal_compare` from create.py: the stack
`[indicator(arr > 0), eight neighbor-equality indicators]` is summed along
axis 0 and multiplied by the foreground indicator. -/
def focal_compare (h w : ℕ) (arr : ℕ → ℕ → ℤ) : ℕ → ℕ → ℤ :=
  fun i j =>
    let out0 : ℤ := if 0 < arr i j then 1 else 0
    let arr_pad := np_pad_edge 1 h w arr
    let cmp : ℤ → ℤ → ℤ := fun s0 s1 =>
      if roll_slice h w arr_pad s0 s1 i j = arr i j then 1 else 0
    (out0 + cmp 1 0 + cmp (-1) 0 + cmp 0 1 + cmp 0 (-1)
      + cmp 1 1 + cmp 1 (-1) + cmp (-1) 1 + cmp (-1) (-1)) * out0

/-- Embedding of the edge-candidate mask
`np.uint8((edge_compare_sum > 0) & (edge_compare_sum < 8))` built in
`create_image_vars` from the focal-comparison score. -/
def edge_candidate (h w : ℕ) (arr : ℕ → ℕ → ℤ) : ℕ → ℕ → ℕ :=
  fun i j =>
    if 0 < focal_compare h w arr i j ∧ focal_compare h w arr i j < 8 then 1 else 0

/-- Embedding of `focal_stat` from create.py: the nine-element stack of the
center value and its eight rolled neighbors, reduced along axis 0.  The python
code dispatches the reducer dynamically via `getattr(np, stat)`; here the
reducer is a parameter, instantiated with `List.sum` at the call site
(`stat='sum'`). -/
def focal_stat (h w : ℕ) (arr : ℕ → ℕ → ℤ) (stat : List ℤ → ℤ) : ℕ → ℕ → ℤ :=
  fun i j =>
    let arr_pad := np_pad_edge 1 h w arr
    stat [arr i j,
      roll_slice h w arr_pad 1 0 i j, roll_slice h w arr_pad (-1) 0 i j,
      roll_slice h w arr_pad 0 1 i j, roll_slice h w arr_pad 0 (-1) i j,
      roll_slice h w arr_pad 1 1 i j, roll_slice h w arr_pad 1 (-1) i j,
      roll_slice h w arr_pad (-1) 1 i j, roll_slice h w arr_pad (-1) (-1) i j]

/-- Embedding of the fragment cleanup in `create_image_vars` (lines 370-376):
`frag_sum = focal_stat(labels == CROP_CLASS, stat='sum')`, then
`np.where(frag_sum < 2, 0, np.where(frag_sum < 4, EDGE_CLASS, labels))`. -/
def fragment_cleanup (h w : ℕ) (labels : ℕ → ℕ → ℕ) : ℕ → ℕ → ℕ :=
  fun i j =>
    let frag_sum := focal_stat h w
      (fun a b => if labels a b = CROP_CLASS then 1 else 0) List.sum i j
    if frag_sum < 2 then 0 else if frag_sum < 4 then EDGE_CLASS else labels i j

/-- Clamped 8-neighborhood coordinates of pixel `(i, j)` of an `h × w` array,
in the order used by `focal_compare` and `focal_stat` (up, down, left, right,
then the four corners).  Edge padding makes an out-of-range neighbor read the
nearest in-range pixel, which is exactly index clamping. -/
def nbrCoords (h w i j : ℕ) : List (ℕ × ℕ) :=
  [(i - 1, j), (min (i + 1) (h - 1), j), (i, j - 1), (i, min (j + 1) (w - 1)),
   (i - 1, j - 1), (i - 1, min (j + 1) (w - 1)),
   (min (i + 1) (h - 1), j - 1), (min (i + 1) (h - 1), min (j + 1) (w - 1))]

/-- Number of the eight (edge-padded) neighbors of `(i, j)` whose value equals
the center value. -/
def neighborEqCount (h w : ℕ) (arr : ℕ → ℕ → ℤ) (i j : ℕ) : ℤ :=
  ((nbrCoords h w i j).map (fun p => if arr p.1 p.2 = arr i j then (1 : ℤ) else 0)).sum

/-- Focal-comparison score as the specification words it: at every foreground
pixel the number of the eight (edge-padded) neighbors whose value equals the
center value, and 0 at every background pixel. -/
def spec_focal_score (h w : ℕ) (arr : ℕ → ℕ → ℤ) (i j : ℕ) : ℤ :=
  if 0 < arr i j then neighborEqCount h w arr i j else 0

/-- Sum of the 3×3 window (center plus the eight edge-padded neighbors) of the
crop indicator at `(i, j)`; this is what `focal_stat(..., stat='sum')`
computes. -/
def windowCropSum (h w : ℕ) (labels : ℕ → ℕ → ℕ) (i j : ℕ) : ℤ :=
  (if labels i j = CROP_CLASS then 1 else 0)
    + ((nbrCoords h w i j).map
        (fun p => if labels p.1 p.2 = CROP_CLASS then (1 : ℤ) else 0)).sum

/-- Fragment-cleanup value as the specification words it: the focal sum over
the eight neighbors only (center excluded); `< 2` becomes background, `[2,4)`
becomes edge, otherwise the pixel "remains crop". -/
def spec_fragment_value (h w : ℕ) (labels : ℕ → ℕ → ℕ) (i j : ℕ) : ℕ :=
  let s := ((nbrCoords h w i j).map
    (fun p => if labels p.1 p.2 = CROP_CLASS then (1 : ℤ) else 0)).sum
  if s < 2 then 0 else if s < 4 then EDGE_CLASS else CROP_CLASS

/-- Decimal digit character, `chr(48 + d)`. -/
def digitChar (d : ℕ) : Char := Char.ofNat (48 + d)

/-- Fuel-driven decimal rendering helper (most significant digit first). -/
def natDecAux : ℕ → ℕ → List Char
  | 0, _ => []
  | fuel + 1, n => if n = 0 then [] else natDecAux fuel (n / 10) ++ [digitChar (n % 10)]

/-- Decimal rendering of a natural number, as python `str(n)`. -/
def natDec (n : ℕ) : List Char := if n = 0 then ['0'] else natDecAux n n

/-- Python format `f'{n:03d}'`: the decimal rendering left-padded with zeros
to at least three characters. -/
def pad3 (n : ℕ) : List Char :=
  let s := natDec n
  if s.length < 3 then List.replicate (3 - s.length) '0' ++ s else s

/-- Python `s.startswith(p)` on strings embedded as character lists. -/
def strStarts : List Char → List Char → Bool
  | _, [] => true
  | [], _ :: _ => false
  | c :: s, d :: p => c = d && strStarts s p

/-- Train identity `f'{group_id}_{grid}_{aug}_{i:03d}'` of a temporal
augmentation sample. -/
def tsTrainId (group_id grid aug : List Char) (i : ℕ) : List Char :=
  group_id ++ '_' :: grid ++ '_' :: aug ++ '_' :: pad3 i

/-- Train identity `f'{group_id}_{grid}_{aug}'` of a non-temporal
augmentation sample. -/
def plainTrainId (group_id grid aug : List Char) : List Char :=
  group_id ++ '_' :: grid ++ '_' :: aug

/-- File name `f'data_{train_id}.pt'` of a persisted sample. -/
def dataFileName (train_id : List Char) : List Char :=
  "data_".toList ++ train_id ++ ".pt".toList

/-- Check of one persisted record in `is_grid_processed`: the store maps a
file name to `some stored_train_id` when `train_path.is_file()` holds and
`torch.load(train_path).train_id` is `stored_train_id` (the file system and
torch are external; the store function is their observable behavior); the
record counts only when the loaded id equals the requested one. -/
def check_stored (store : List Char → Option (List Char)) (train_id : List Char) : Bool :=
  match store (dataFileName train_id) with
  | some t => t == train_id
  | none => false

/-- Embedding of `is_grid_processed` from create.py: fold over the requested
transforms, setting `batch_stored` whenever a matching persisted record is
found ('ts-' transforms check every temporal index `0..n_ts-1`). -/
def is_grid_processed (store : List Char → Option (List Char))
    (transforms : List (List Char)) (group_id grid : List Char) (n_ts : ℕ) : Bool :=
  transforms.foldl
    (fun batch_stored aug =>
      if strStarts aug "ts-".toList then
        (List.range n_ts).foldl
          (fun b i => if check_stored store (tsTrainId group_id grid aug i) then true else b)
          batch_stored
      else
        if check_stored store (plainTrainId group_id grid aug) then true else batch_stored)
    false

/-- Stored-for-one-transform predicate: some persisted identity of transform
`aug` (any temporal index for a 'ts-' transform) exists with a matching id. -/
def augStored (store : List Char → Option (List Char))
    (group_id grid aug : List Char) (n_ts : ℕ) : Bool :=
  if strStarts aug "ts-".toList then
    (List.range n_ts).any (fun i => check_stored store (tsTrainId group_id grid aug i))
  else
    check_stored store (plainTrainId group_id grid aug)

/-- Skip condition as the claim words it: a persisted record exists for all
requested augmentation ids (for 'ts-' transforms, for every temporal index
`0..n_ts-1`). -/
def spec_all_stored (store : List Char → Option (List Char))
    (transforms : List (List Char)) (group_id grid : List Char) (n_ts : ℕ) : Bool :=
  transforms.all (fun aug =>
    if strStarts aug "ts-".toList then
      (List.range n_ts).all (fun i => check_stored store (tsTrainId group_id grid aug i))
    else
      check_stored store (plainTrainId group_id grid aug))

/-- Embedding of `close_edge_ends` from create.py.  The four border
assignments run in this order: the top row is replaced by the class-1
indicator of row 1, the bottom row by the class-1 indicator of row `-1`
(itself), then the left and right columns by the class-1 indicators of
columns `0` and `-1` (themselves, after the row updates). -/
def close_edge_ends (h w : ℕ) (labels : ℕ → ℕ → ℕ) : ℕ → ℕ → ℕ :=
  let a1 : ℕ → ℕ → ℕ := fun i j =>
    if i = 0 then (if labels 1 j = 1 then 1 else 0) else labels i j
  let a2 : ℕ → ℕ → ℕ := fun i j =>
    if i = h - 1 then (if a1 (h - 1) j = 1 then 1 else 0) else a1 i j
  let a3 : ℕ → ℕ → ℕ := fun i j =>
    if j = 0 then (if a2 i 0 = 1 then 1 else 0) else a2 i j
  fun i j =>
    if j = w - 1 then (if a3 i (w - 1) = 1 then 1 else 0) else a3 i j

/-- Embedding of one grid row of `create_dataset`: its grid identifier and the
index list returned by `sindex.intersection` on the clipped edges' bounds
(the spatial index is external; its answer is data of the row). -/
structure GridRow where
  grid : ℕ
  int_idx : List ℕ
deriving DecidableEq, Repr

/-- Grid identifiers `df_grids.iloc[int_idx].grid.values` of an index list
(out-of-range indices, which python would reject, read a dummy row). -/
def gridsAt (rows : List GridRow) (idx : List ℕ) : List ℕ :=
  idx.map (fun k => (rows.getD k ⟨0, []⟩).grid)

/-- One iteration of the multi-tile bookkeeping of `create_dataset`
(lines 461-471): state is `(merged_grids, processed grid ids)`.  A row whose
edges intersect more than one grid is skipped when any co-intersecting grid id
is already merged, and otherwise appends its own grid id to `merged_grids`;
a single-grid row is processed without touching `merged_grids`.  Processing a
row stands for reaching sample generation (the later size/persistence skips
are outside this claim). -/
def dataset_step (rows : List GridRow) (st : List ℕ × List ℕ) (r : GridRow) :
    List ℕ × List ℕ :=
  if r.int_idx.length > 1 then
    if (gridsAt rows r.int_idx).any (fun g => st.1.contains g) then
      st
    else
      (st.1 ++ [r.grid], st.2 ++ [r.grid])
  else
    (st.1, st.2 ++ [r.grid])

/-- The multi-tile bookkeeping loop of `create_dataset` over all grid rows,
starting from `merged_grids = []`. -/
def create_dataset_loop (rows : List GridRow) : List ℕ × List ℕ :=
  rows.foldl (dataset_step rows) ([], [])

/-- Embedding of the clip / repair-once / re-clip protocol of `create_dataset`
(lines 440-449): `clip` and `repair` (the zero-width buffer rebuild of
`df_edges`) are external geometry operations; on a clip failure the boundary
set is repaired once and the clip retried, and a second failure is returned
as a fatal error.  The returned pair carries the (possibly repaired) boundary
set that stays in scope for subsequent grid cells, and the clipped edges. -/
def clip_with_repair {E C Er : Type} (clip : E → C → Except Er E) (repair : E → E)
    (df_edges : E) (cell : C) : Except Er (E × E) :=
  match clip df_edges cell with
  | Except.ok grid_edges => Except.ok (df_edges, grid_edges)
  | Except.error _ =>
    match clip (repair df_edges) cell with
    | Except.ok grid_edges => Except.ok (repair df_edges, grid_edges)
    | Except.error e => Except.error e

/-- The per-cell clipping loop of `create_dataset`, threading the boundary
set through `clip_with_repair`: a fatal clip error halts the run, a success
appends the cell's clipped edges and continues with the returned (possibly
repaired) boundary set. -/
def run_cells {E C Er : Type} (clip : E → C → Except Er E) (repair : E → E) :
    List C → E → Except Er (E × List E)
  | [], df_edges => Except.ok (df_edges, [])
  | c :: cs, df_edges =>
    match clip_with_repair clip repair df_edges c with
    | Except.error e => Except.error e
    | Except.ok (df', ge) =>
      match run_cells clip repair cs df' with
      | Except.error e => Except.error e
      | Except.ok (dfF, ges) => Except.ok (dfF, ge :: ges)

/-- Prepend one clipped result to a run outcome (helper for stating how
`run_cells` unfolds on a cons cell). -/
def cons_result {E Er : Type} (ge : E) : Except Er (E × List E) → Except Er (E × List E)
  | Except.error e => Except.error e
  | Except.ok (dfF, ges) => Except.ok (dfF, ge :: ges)

/-- Embedding of `remove_noncrop` from create.py over an image stack of
`nb` bands of shape `h × w`: the last band (`xvars[-1]`, the boundary
distances) is multiplied by the crop indicator of the labels; the labels are
then masked by the positivity of a 4-neighbor mean of the 5-padded masked
distances. -/
def remove_noncrop (nb h w : ℕ) (xvars : ℕ → ℕ → ℕ → ℚ) (labels : ℕ → ℕ → ℕ) :
    (ℕ → ℕ → ℕ → ℚ) × (ℕ → ℕ → ℕ) :=
  let bdist : ℕ → ℕ → ℚ := fun i j =>
    xvars (nb - 1) i j * (if 0 < labels i j then 1 else 0)
  let xvars' : ℕ → ℕ → ℕ → ℚ := fun b i j =>
    if b = nb - 1 then bdist i j else xvars b i j
  let bdistP := np_pad_edge 5 h w bdist
  let dist_mean0 : ℕ → ℕ → ℚ := fun r c =>
    if 1 ≤ r ∧ r + 1 < h + 10 ∧ 1 ≤ c ∧ c + 1 < w + 10 then
      np_roll (h + 10) (w + 10) bdistP 0 1 r c + np_roll (h + 10) (w + 10) bdistP 0 (-1) r c
        + np_roll (h + 10) (w + 10) bdistP 1 0 r c + np_roll (h + 10) (w + 10) bdistP (-1) 0 r c
    else 0
  let dist_mean : ℕ → ℕ → ℚ := fun i j => dist_mean0 (i + 5) (j + 5) / 4
  let labels' : ℕ → ℕ → ℕ := fun i j =>
    labels i j * (if 0 < dist_mean i j then 1 else 0)
  (xvars', labels')

/-- Row-major list of the pixel coordinates of an `h × w` array. -/
def gridPixels (h w : ℕ) : List (ℕ × ℕ) :=
  List.product (List.range h) (List.range w)

/-- Distinct values occurring in an `h × w` array, as `np.unique` computes on
`segments` (the loop result below is independent of the enumeration order, so
the sortedness of `np.unique` is not modelled). -/
def uniqueVals (h w : ℕ) (g : ℕ → ℕ → ℕ) : List ℕ :=
  ((gridPixels h w).map (fun p => g p.1 p.2)).dedup

/-- Distinct positive labels of a segment map: the labels enumerated by
skimage `regionprops(segments)` (which reports every nonzero label). -/
def propsLabels (h w : ℕ) (seg : ℕ → ℕ → ℕ) : List ℕ :=
  (uniqueVals h w seg).filter (fun l => decide (0 < l))

/-- Row-major list of the pixels of segment `l`. -/
def segPixelsList (h w : ℕ) (seg : ℕ → ℕ → ℕ) (l : ℕ) : List (ℕ × ℕ) :=
  (gridPixels h w).filter (fun p => decide (seg p.1 p.2 = l))

/-- Minimum of a list of naturals (0 on the empty list; only used on the
nonempty pixel lists of reported regions). -/
def listMin : List ℕ → ℕ
  | [] => 0
  | a :: l => l.foldl min a

/-- Maximum of a list of naturals (0 on the empty list). -/
def listMax : List ℕ → ℕ
  | [] => 0
  | a :: l => l.foldl max a

/-- Maximum of a list of rationals (0 on the empty list). -/
def listMaxQ : List ℚ → ℚ
  | [] => 0
  | a :: l => l.foldl max a

/-- skimage `regionprops` bounding box `min_row` of segment `l`. -/
def bboxMinRow (h w : ℕ) (seg : ℕ → ℕ → ℕ) (l : ℕ) : ℕ :=
  listMin ((segPixelsList h w seg l).map Prod.fst)

/-- skimage `regionprops` bounding box `max_row` (exclusive) of segment `l`. -/
def bboxMaxRow (h w : ℕ) (seg : ℕ → ℕ → ℕ) (l : ℕ) : ℕ :=
  listMax ((segPixelsList h w seg l).map Prod.fst) + 1

/-- skimage `regionprops` bounding box `min_col` of segment `l`. -/
def bboxMinCol (h w : ℕ) (seg : ℕ → ℕ → ℕ) (l : ℕ) : ℕ :=
  listMin ((segPixelsList h w seg l).map Prod.snd)

/-- skimage `regionprops` bounding box `max_col` (exclusive) of segment `l`. -/
def bboxMaxCol (h w : ℕ) (seg : ℕ → ℕ → ℕ) (l : ℕ) : ℕ :=
  listMax ((segPixelsList h w seg l).map Prod.snd) + 1

/-- Degenerate bounding box test
`(max_row - min_row <= 1) or (max_col - min_col <= 1)` shared by
`check_slivers` and `normalize_boundary_distances`. -/
def thinBBox (h w : ℕ) (seg : ℕ → ℕ → ℕ) (l : ℕ) : Prop :=
  bboxMaxRow h w seg l - bboxMinRow h w seg l ≤ 1
    ∨ bboxMaxCol h w seg l - bboxMinCol h w seg l ≤ 1

instance (h w : ℕ) (seg : ℕ → ℕ → ℕ) (l : ℕ) : Decidable (thinBBox h w seg l) := by
  unfold thinBBox; infer_instance

/-- One step of the sliver-erasure loop of `check_slivers`: a region whose
bounding box is degenerate has all its pixels set to background. -/
def sliver_step (h w : ℕ) (seg : ℕ → ℕ → ℕ) (g : ℕ → ℕ → ℕ) (l : ℕ) : ℕ → ℕ → ℕ :=
  if thinBBox h w seg l then (fun i j => if seg i j = l then 0 else g i j) else g

/-- Embedding of `check_slivers` from create.py.  `segments` is the output of
the (external) connected-component labelling performed upstream; the loop runs
over the `regionprops` regions, then `labels_array[edges == 1] = EDGE_CLASS`
re-imposes the pixels whose value in the `edges` argument is 1.  At the
`create_dataset` call site `edges` is the full pre-recode label array. -/
def check_slivers (h w : ℕ) (labels edges seg : ℕ → ℕ → ℕ) : ℕ → ℕ → ℕ :=
  let after := (propsLabels h w seg).foldl (sliver_step h w seg) labels
  fun i j => if edges i j = 1 then EDGE_CLASS else after i j

/-- Count `nd_sum(np.uint8(labels > 0), labels=segments, index=[l])` of
crop-labelled pixels of segment `l` (computed from the labels as they are
before the uniformization loop starts). -/
def cropTotal (h w : ℕ) (labels seg : ℕ → ℕ → ℕ) (l : ℕ) : ℕ :=
  (gridPixels h w).countP (fun p => decide (seg p.1 p.2 = l ∧ 0 < labels p.1 p.2))

/-- Pixel count `(segments == lab).sum()` of segment `l`. -/
def segArea (h w : ℕ) (seg : ℕ → ℕ → ℕ) (l : ℕ) : ℕ :=
  (segPixelsList h w seg l).length

/-- Row-major values `labels_array[np.where(segments == lab)]` of a segment. -/
def pixelValues (h w : ℕ) (seg labels : ℕ → ℕ → ℕ) (l : ℕ) : List ℕ :=
  (gridPixels h w).filterMap
    (fun p => if seg p.1 p.2 = l then some (labels p.1 p.2) else none)

/-- Behavior of `scipy.stats.mode(values).mode[0]`: the smallest value
attaining the maximal multiplicity (scipy sorts the unique values and takes
the first argmax of the counts); 0 on the empty list, which the loop never
passes. -/
def sci_mode (values : List ℕ) : ℕ :=
  (values.dedup.foldl
    (fun best v =>
      match best with
      | none => some v
      | some b =>
        if values.count b < values.count v ∨ (values.count v = values.count b ∧ v < b)
        then some v else best)
    none).getD 0

/-- Connectivity mask `np.uint8(edges == 0)` handed to `nd_label` by
`make_crops_uniform`.  At the `create_dataset` call site `edges` is the full
pre-recode label array, so every pre-recode nonzero pixel (crop class 1 and
edge class 2 alike) is excluded from connectivity. -/
def uniform_conn_mask (edges : ℕ → ℕ → ℕ) : ℕ → ℕ → ℕ :=
  fun i j => if edges i j = 0 then 1 else 0

/-- Connectivity mask as the claim words it: only edge-class pixels are
excluded from connectivity. -/
def spec_uniform_mask (edges : ℕ → ℕ → ℕ) : ℕ → ℕ → ℕ :=
  fun i j => if edges i j = EDGE_CLASS then 0 else 1

/-- One step of the uniformization loop of `make_crops_uniform` for label
`lab`: a component with no crop pixels, or with a crop fraction of at most
one half, becomes background; a majority-crop component is rewritten to
`CROP_CLASS` in 'boundaries' mode and otherwise to the statistical mode of
all its current label values.  `ct` is the precomputed `crop_totals` table. -/
def uniform_step (h w : ℕ) (seg : ℕ → ℕ → ℕ) (ct : ℕ → ℕ) (data_type : String)
    (g : ℕ → ℕ → ℕ) (lab : ℕ) : ℕ → ℕ → ℕ :=
  if ct lab = 0 then
    fun i j => if seg i j = lab then 0 else g i j
  else
    if (1 / 2 : ℚ) < (ct lab : ℚ) / (segArea h w seg lab : ℚ) then
      if data_type = "boundaries" then
        fun i j => if seg i j = lab then CROP_CLASS else g i j
      else
        fun i j => if seg i j = lab then sci_mode (pixelValues h w seg g lab) else g i j
    else
      fun i j => if seg i j = lab then 0 else g i j

/-- Embedding of `make_crops_uniform` from create.py.  `seg` stands for the
output `nd_label(uniform_conn_mask edges)` of the external scipy labeller;
`crop_totals` is computed once from the incoming labels, then the loop runs
over `np.unique(segments)` (the background label 0 included). -/
def make_crops_uniform (h w : ℕ) (labels edges : ℕ → ℕ → ℕ) (data_type : String)
    (seg : ℕ → ℕ → ℕ) : ℕ → ℕ → ℕ :=
  let _mask := uniform_conn_mask edges
  let ct := cropTotal h w labels seg
  (uniqueVals h w seg).foldl (uniform_step h w seg ct data_type) labels

/-- Carrier of numpy float values: a finite rational, or one of the IEEE
special values NaN, +inf, -inf that degenerate divisions produce. -/
inductive NpVal where
  | val (q : ℚ)
  | nan
  | inf
  | ninf
deriving DecidableEq, Repr

/-- IEEE division of a float by a finite float, as numpy evaluates it:
division by zero of a nonzero numerator gives a signed infinity and `0/0`
gives NaN; infinities keep their sign rule; NaN propagates. -/
def npdivV : NpVal → ℚ → NpVal
  | NpVal.val a, b =>
    if b = 0 then (if a = 0 then NpVal.nan else if 0 < a then NpVal.inf else NpVal.ninf)
    else NpVal.val (a / b)
  | NpVal.nan, _ => NpVal.nan
  | NpVal.inf, b => if 0 ≤ b then NpVal.inf else NpVal.ninf
  | NpVal.ninf, b => if 0 ≤ b then NpVal.ninf else NpVal.inf

/-- numpy `x.clip(0, 1)`: finite values are clamped into `[0, 1]`, the
infinities saturate to the bounds, NaN propagates. -/
def npclip01 : NpVal → NpVal
  | NpVal.val a => NpVal.val (min (max a 0) 1)
  | NpVal.nan => NpVal.nan
  | NpVal.inf => NpVal.val 1
  | NpVal.ninf => NpVal.val 0

/-- numpy `np.nan_to_num(x, nan=1.0, neginf=1.0, posinf=1.0)`. -/
def np_nan_to_num_one : NpVal → NpVal
  | NpVal.val a => NpVal.val a
  | NpVal.nan => NpVal.val 1
  | NpVal.inf => NpVal.val 1
  | NpVal.ninf => NpVal.val 1

/-- Bounding-box window membership `(slice(min_row, max_row),
slice(min_col, max_col))` of segment `l`. -/
def inBBox (h w : ℕ) (seg : ℕ → ℕ → ℕ) (l i j : ℕ) : Prop :=
  bboxMinRow h w seg l ≤ i ∧ i < bboxMaxRow h w seg l
    ∧ bboxMinCol h w seg l ≤ j ∧ j < bboxMaxCol h w seg l

instance (h w : ℕ) (seg : ℕ → ℕ → ℕ) (l i j : ℕ) : Decidable (inBBox h w seg l i j) := by
  unfold inBBox; infer_instance

/-- skimage `regionprops(segments, intensity_image=bdist)` descriptor
`max_intensity` of segment `l`: the maximal original distance value over the
segment's pixels. -/
def maxIntensity (h w : ℕ) (seg : ℕ → ℕ → ℕ) (bd : ℕ → ℕ → ℚ) (l : ℕ) : ℚ :=
  listMaxQ ((segPixelsList h w seg l).map (fun p => bd p.1 p.2))

/-- One step of the normalization loop of `normalize_boundary_distances`: in
the window of region `l`, pixels of the region get the constant `0.1` when the
bounding box is degenerate and are otherwise divided by the region's
`max_intensity` (precomputed from the original distances); other window pixels
are written back unchanged.  The `0 < l` guard mirrors `if p.label > 0`. -/
def norm_step (h w : ℕ) (seg : ℕ → ℕ → ℕ) (bd : ℕ → ℕ → ℚ)
    (g : ℕ → ℕ → NpVal) (l : ℕ) : ℕ → ℕ → NpVal :=
  if 0 < l then
    fun i j =>
      if inBBox h w seg l i j ∧ seg i j = l then
        if thinBBox h w seg l then NpVal.val (1 / 10)
        else npdivV (g i j) (maxIntensity h w seg bd l)
      else g i j
  else g

/-- The per-region normalization fold of `normalize_boundary_distances`,
before the final clip and NaN replacement.  `seg` and `bd` stand for the
outputs of the external `nd_label` and `cv2.distanceTransform` collaborators
invoked by `create_boundary_distances`. -/
def normalize_pre (h w : ℕ) (seg : ℕ → ℕ → ℕ) (bd : ℕ → ℕ → ℚ) : ℕ → ℕ → NpVal :=
  (propsLabels h w seg).foldl (norm_step h w seg bd) (fun i j => NpVal.val (bd i j))

/-- Embedding of `normalize_boundary_distances` from create.py: the
per-region fold followed by
`np.nan_to_num(bdist.clip(0, 1), nan=1.0, neginf=1.0, posinf=1.0)`. -/
def normalize_boundary_distances (h w : ℕ) (seg : ℕ → ℕ → ℕ) (bd : ℕ → ℕ → ℚ) :
    ℕ → ℕ → NpVal :=
  fun i j => np_nan_to_num_one (npclip01 (normalize_pre h w seg bd i j))

theorem foldl_if_true_eq_or {α : Type} (p : α → Bool) (l : List α) (b : Bool) :
    l.foldl (fun acc a => if p a then true else acc) b = (b || l.any p) := by
  induction l generalizing b with
  | nil => simp
  | cons x xs ih =>
    rw [List.foldl_cons, ih, List.any_cons]
    cases hpx : p x <;> simp [hpx]

theorem is_grid_processed_foldl (store : List Char → Option (List Char))
    (transforms : List (List Char)) (group_id grid : List Char) (n_ts : ℕ) (b : Bool) :
    transforms.foldl
      (fun batch_stored aug =>
        if strStarts aug "ts-".toList then
          (List.range n_ts).foldl
            (fun acc i => if check_stored store (tsTrainId group_id grid aug i) then true else acc)
            batch_stored
        else
          if check_stored store (plainTrainId group_id grid aug) then true else batch_stored)
      b
    = (b || transforms.any (fun aug => augStored store group_id grid aug n_ts)) := by
  induction transforms generalizing b with
  | nil => simp
  | cons x xs ih =>
    rw [List.foldl_cons, ih, List.any_cons]
    have hstep : (if strStarts x "ts-".toList then
        (List.range n_ts).foldl
          (fun acc i => if check_stored store (tsTrainId group_id grid x i) then true else acc) b
      else
        if check_stored store (plainTrainId group_id grid x) then true else b)
        = (b || augStored store group_id grid x n_ts) := by
      unfold augStored
      cases hts : strStarts x "ts-".toList with
      | true =>
        simp only [hts, if_true]
        rw [foldl_if_true_eq_or]
      | false =>
        simp only [hts, if_false, Bool.false_eq_true]
        cases hc : check_stored store (plainTrainId group_id grid x) <;> simp [hc]
    rw [hstep, Bool.or_assoc]

/-- Claim C1, corrected.  `is_grid_processed` returns `true` exactly when at
least one requested augmentation identity (for a 'ts-' transform, at least one
temporal index in `0..n_ts-1`) is already stored with a matching `train_id` —
an existential over the requested identities, not the universal "stored for
all requested augmentation ids" of the claim. -/
theorem C1_is_grid_processed_any (store : List Char → Option (List Char))
    (transforms : List (List Char)) (group_id grid : List Char) (n_ts : ℕ) :
    is_grid_processed store transforms group_id grid n_ts
      = transforms.any (fun aug => augStored store group_id grid aug n_ts) := by
  unfold is_grid_processed
  rw [is_grid_processed_foldl]
  simp

/-- Claim C1 counterexample: with only the 'none' sample of the two requested
transforms `['none', 'fliplr']` persisted, `is_grid_processed` already returns
`true` (so the orchestrator skips the cell), although a record does not exist
for all requested augmentation ids. -/
theorem C1_counterexample :
    is_grid_processed
        (fun s => if s = "data_g_1_none.pt".toList then some "g_1_none".toList else none)
        ["none".toList, "fliplr".toList] "g".toList "1".toList 2 = true
      ∧ spec_all_stored
        (fun s => if s = "data_g_1_none.pt".toList then some "g_1_none".toList else none)
        ["none".toList, "fliplr".toList] "g".toList "1".toList 2 = false := by
  constructor
  · decide
  · decide

theorem dataset_loop_skip_all (rows : List GridRow) (g : ℕ) (l : List GridRow)
    (P : List ℕ)
    (hl : ∀ r ∈ l, r.int_idx.length > 1 ∧ g ∈ gridsAt rows r.int_idx) :
    l.foldl (dataset_step rows) ([g], P) = ([g], P) := by
  induction l with
  | nil => rfl
  | cons r rest ih =>
    have hr := hl r (List.mem_cons_self r rest)
    have hstep : dataset_step rows ([g], P) r = ([g], P) := by
      unfold dataset_step
      rw [if_pos hr.1, if_pos]
      rw [List.any_eq_true]
      exact ⟨g, hr.2, by simp⟩
    rw [List.foldl_cons, hstep]
    exact ih (fun r' hr' => hl r' (List.mem_cons_of_mem r hr'))

/-- Claim C2, corrected.  When the first grid row's clipped edges intersect
more than one grid cell, only that row's own grid id is appended to the
run-scoped merged set (not all intersecting cell ids); every subsequent row
whose spatial-index answer also covers more than one cell and whose
co-intersecting grid ids include the first row's id is skipped, so over the
whole loop exactly one row reaches sample generation for the shared boundary
(granted the later size and persistence skips, outside this model, do not
fire). -/
theorem C2_merged_grid_loop (rows : List GridRow) (r1 : GridRow) (rest : List GridRow)
    (hrows : rows = r1 :: rest)
    (h1 : r1.int_idx.length > 1)
    (hrest : ∀ r ∈ rest, r.int_idx.length > 1 ∧ r1.grid ∈ gridsAt rows r.int_idx) :
    create_dataset_loop rows = ([r1.grid], [r1.grid]) := by
  subst hrows
  unfold create_dataset_loop
  rw [List.foldl_cons]
  have hstep : dataset_step (r1 :: rest) ([], []) r1 = ([r1.grid], [r1.grid]) := by
    unfold dataset_step
    rw [if_pos h1, if_neg]
    · rfl
    · simp
  rw [hstep]
  exact dataset_loop_skip_all (r1 :: rest) r1.grid rest [r1.grid] hrest

/-- Claim C2 counterexample: two adjacent rows (grids 1 and 2) whose clipped
edges each intersect both cells.  The run-scoped merged set ends as `[1]`:
the co-intersecting cell id 2 is never recorded in it, contradicting "records
all intersecting cell ids in the run-scoped merged set" (the one-sample
outcome itself survives, as the processed list `[1]` shows). -/
theorem C2_counterexample :
    gridsAt [⟨1, [0, 1]⟩, ⟨2, [0, 1]⟩] [0, 1] = [1, 2]
      ∧ (create_dataset_loop [⟨1, [0, 1]⟩, ⟨2, [0, 1]⟩]).1 = [1]
      ∧ ¬ (2 ∈ (create_dataset_loop [⟨1, [0, 1]⟩, ⟨2, [0, 1]⟩]).1)
      ∧ (create_dataset_loop [⟨1, [0, 1]⟩, ⟨2, [0, 1]⟩]).2 = [1] := by
  refine ⟨by decide, by decide, by decide, by decide⟩

/-- Witness for claim C2: a concrete two-row run in which both rows
co-intersect; exactly the first row's grid id is merged and processed. -/
theorem C2_merged_grid_loop_witness :
    create_dataset_loop [⟨5, [0, 1]⟩, ⟨6, [0, 1]⟩] = ([5], [5]) :=
  C2_merged_grid_loop [⟨5, [0, 1]⟩, ⟨6, [0, 1]⟩] ⟨5, [0, 1]⟩ [⟨6, [0, 1]⟩]
    rfl (by decide) (by decide)

/-- Claim C9, confirmed.  On a grid cell whose clip succeeds, no repair
happens and the run continues with the unchanged boundary set; when the clip
fails, the boundary set is repaired exactly once and the clip retried, a
successful retry letting the run continue with the repaired set in scope for
all subsequent cells, while a failure of the retried clip is not absorbed and
halts the run (no further cell is processed). -/
theorem C9_clip_repair_protocol {E C Er : Type} (clip : E → C → Except Er E)
    (repair : E → E) (df : E) (c : C) (cs : List C) :
    (∀ ge, clip df c = Except.ok ge →
      run_cells clip repair (c :: cs) df = cons_result ge (run_cells clip repair cs df))
    ∧ (∀ e ge, clip df c = Except.error e → clip (repair df) c = Except.ok ge →
      run_cells clip repair (c :: cs) df
        = cons_result ge (run_cells clip repair cs (repair df)))
    ∧ (∀ e e', clip df c = Except.error e → clip (repair df) c = Except.error e' →
      run_cells clip repair (c :: cs) df = Except.error e') := by
  refine ⟨fun ge hok => ?_, fun e ge herr hok => ?_, fun e e' herr herr' => ?_⟩
  · show (match clip_with_repair clip repair df c with
      | Except.error e => Except.error e
      | Except.ok (df', ge') =>
        match run_cells clip repair cs df' with
        | Except.error e => Except.error e
        | Except.ok (dfF, ges) => Except.ok (dfF, ge' :: ges))
      = cons_result ge (run_cells clip repair cs df)
    rw [show clip_with_repair clip repair df c = Except.ok (df, ge) by
      unfold clip_with_repair; rw [hok]]
    cases hrun : run_cells clip repair cs df <;> simp [cons_result, hrun]
  · show (match clip_with_repair clip repair df c with
      | Except.error e => Except.error e
      | Except.ok (df', ge') =>
        match run_cells clip repair cs df' with
        | Except.error e => Except.error e
        | Except.ok (dfF, ges) => Except.ok (dfF, ge' :: ges))
      = cons_result ge (run_cells clip repair cs (repair df))
    rw [show clip_with_repair clip repair df c = Except.ok (repair df, ge) by
      unfold clip_with_repair; rw [herr, hok]]
    cases hrun : run_cells clip repair cs (repair df) <;> simp [cons_result, hrun]
  · show (match clip_with_repair clip repair df c with
      | Except.error e => Except.error e
      | Except.ok (df', ge') =>
        match run_cells clip repair cs df' with
        | Except.error e => Except.error e
        | Except.ok (dfF, ges) => Except.ok (dfF, ge' :: ges))
      = Except.error e'
    rw [show clip_with_repair clip repair df c = Except.error e' by
      unfold clip_with_repair; rw [herr, herr']]

/-- Witness for claim C9: a concrete store of boundary sets (naturals) whose
clip fails exactly on the unrepaired value 0; the first cell triggers one
repair and the run continues on the repaired set. -/
theorem C9_clip_repair_protocol_witness :
    run_cells (fun (df c : ℕ) => if df = 0 then Except.error 7 else Except.ok (df * 10 + c))
        (fun df => df + 1) [3, 4] 0
      = cons_result 13
          (run_cells
            (fun (df c : ℕ) => if df = 0 then Except.error 7 else Except.ok (df * 10 + c))
            (fun df => df + 1) [4] 1) :=
  (C9_clip_repair_protocol
      (fun (df c : ℕ) => if df = 0 then Except.error 7 else Except.ok (df * 10 + c))
      (fun df => df + 1) 0 3 [4]).2.1 7 13 rfl rfl

/-- Claim C10, confirmed.  `remove_noncrop` returns every image band other
than the last unchanged; the last band (the boundary-distance band) is the
old last band multiplied by the crop indicator of the labels, i.e. zeroed
wherever the label is background and kept elsewhere. -/
theorem C10_remove_noncrop_frame (nb h w : ℕ) (xvars : ℕ → ℕ → ℕ → ℚ)
    (labels : ℕ → ℕ → ℕ) (b i j : ℕ) (hb : b < nb - 1) :
    (remove_noncrop nb h w xvars labels).1 b i j = xvars b i j
    ∧ (remove_noncrop nb h w xvars labels).1 (nb - 1) i j
        = xvars (nb - 1) i j * (if 0 < labels i j then 1 else 0) := by
  constructor
  · simp only [remove_noncrop]
    rw [if_neg (Nat.ne_of_lt hb)]
  · simp only [remove_noncrop, if_true]

/-- Witness for claim C10: a concrete 3-band 2×2 stack; band 0 is unchanged
and the last band is masked by the crop indicator. -/
theorem C10_remove_noncrop_frame_witness :
    (remove_noncrop 3 2 2 (fun b i j => (b : ℚ) + i + j)
        (fun i j => i * j)).1 0 1 1 = (fun b i j => (b : ℚ) + i + j) 0 1 1
    ∧ (remove_noncrop 3 2 2 (fun b i j => (b : ℚ) + i + j)
        (fun i j => i * j)).1 2 1 1
        = (fun b i j => (b : ℚ) + i + j) 2 1 1 * (if 0 < (fun i j => i * j) 1 1 then 1 else 0) :=
  C10_remove_noncrop_frame 3 2 2 (fun b i j => (b : ℚ) + i + j) (fun i j => i * j)
    0 1 1 (by decide)

/-- Claim C8, code bug.  Evaluation of `close_edge_ends` on a 3×3 array whose
only class-1 pixel sits at `(1, 0)` (row `-2`, column 0): the claimed
behavior propagates that pixel to the bottom border, but the code reads the
bottom row itself (`labels_array[-1, :]`, not `[-2, :]`), so the bottom-left
border pixel stays 0; the top border, whose read really is the adjacent
interior row 1, does receive the propagated 1. -/
theorem C8_close_edge_ends_bottom_reads_itself :
    (fun i j : ℕ => if i = 1 ∧ j = 0 then 1 else 0) 1 0 = 1
    ∧ close_edge_ends 3 3 (fun i j => if i = 1 ∧ j = 0 then 1 else 0) 2 0 = 0
    ∧ close_edge_ends 3 3 (fun i j => if i = 1 ∧ j = 0 then 1 else 0) 0 0 = 1 := by
  refine ⟨by decide, by decide, by decide⟩

theorem roll_slice_pad_eval {α : Type} (h w : ℕ) (arr : ℕ → ℕ → α) (s0 s1 : ℤ)
    (i j r c : ℕ) (hi : i < h) (hj : j < w) (hs0 : s0.natAbs ≤ 1) (hs1 : s1.natAbs ≤ 1)
    (hr : min (((i : ℤ) + 1 - s0).toNat - 1) (h - 1) = r)
    (hc : min (((j : ℤ) + 1 - s1).toNat - 1) (w - 1) = c) :
    roll_slice h w (np_pad_edge 1 h w arr) s0 s1 i j = arr r c := by
  unfold roll_slice np_roll np_pad_edge
  have h0 : (((i + 1 : ℕ) : ℤ) - s0) % ((h + 2 : ℕ) : ℤ) = (i : ℤ) + 1 - s0 := by
    rw [Int.emod_eq_of_lt (by omega) (by omega)]
    push_cast
    ring
  have h1 : (((j + 1 : ℕ) : ℤ) - s1) % ((w + 2 : ℕ) : ℤ) = (j : ℤ) + 1 - s1 := by
    rw [Int.emod_eq_of_lt (by omega) (by omega)]
    push_cast
    ring
  rw [h0, h1, hr, hc]

theorem focal_compare_eval (h w : ℕ) (arr : ℕ → ℕ → ℤ) (i j : ℕ)
    (hi : i < h) (hj : j < w) :
    focal_compare h w arr i j
      = (if 0 < arr i j then neighborEqCount h w arr i j + 1 else 0) := by
  simp only [focal_compare]
  rw [roll_slice_pad_eval h w arr 1 0 i j (i - 1) j hi hj (by decide) (by decide)
        (by omega) (by omega),
      roll_slice_pad_eval h w arr (-1) 0 i j (min (i + 1) (h - 1)) j hi hj (by decide)
        (by decide) (by omega) (by omega),
      roll_slice_pad_eval h w arr 0 1 i j i (j - 1) hi hj (by decide) (by decide)
        (by omega) (by omega),
      roll_slice_pad_eval h w arr 0 (-1) i j i (min (j + 1) (w - 1)) hi hj (by decide)
        (by decide) (by omega) (by omega),
      roll_slice_pad_eval h w arr 1 1 i j (i - 1) (j - 1) hi hj (by decide) (by decide)
        (by omega) (by omega),
      roll_slice_pad_eval h w arr 1 (-1) i j (i - 1) (min (j + 1) (w - 1)) hi hj
        (by decide) (by decide) (by omega) (by omega),
      roll_slice_pad_eval h w arr (-1) 1 i j (min (i + 1) (h - 1)) (j - 1) hi hj
        (by decide) (by decide) (by omega) (by omega),
      roll_slice_pad_eval h w arr (-1) (-1) i j (min (i + 1) (h - 1)) (min (j + 1) (w - 1))
        hi hj (by decide) (by decide) (by omega) (by omega)]
  simp only [neighborEqCount, nbrCoords, List.map_cons, List.map_nil, List.sum_cons,
    List.sum_nil]
  by_cases hfg : 0 < arr i j
  · rw [if_pos hfg, if_pos hfg]
    ring
  · rw [if_neg hfg, if_neg hfg]
    ring

theorem neighborEqCount_bounds (h w : ℕ) (arr : ℕ → ℕ → ℤ) (i j : ℕ) :
    0 ≤ neighborEqCount h w arr i j ∧ neighborEqCount h w arr i j ≤ 8 := by
  have hmem : ∀ x ∈ (nbrCoords h w i j).map
      (fun p => if arr p.1 p.2 = arr i j then (1 : ℤ) else 0), 0 ≤ x ∧ x ≤ 1 := by
    intro x hx
    rw [List.mem_map] at hx
    obtain ⟨p, _, rfl⟩ := hx
    by_cases hp : arr p.1 p.2 = arr i j <;> simp [hp]
  constructor
  · exact List.sum_nonneg (fun x hx => (hmem x hx).1)
  · have hlen : ((nbrCoords h w i j).map
        (fun p => if arr p.1 p.2 = arr i j then (1 : ℤ) else 0)).length = 8 := by
      simp [nbrCoords]
    have := List.sum_le_card_nsmul
      ((nbrCoords h w i j).map (fun p => if arr p.1 p.2 = arr i j then (1 : ℤ) else 0))
      1 (fun x hx => (hmem x hx).2)
    rw [hlen] at this
    simpa using this

/-- Claim C4, corrected.  At a foreground pixel the score computed by
`focal_compare` is one more than the number of the eight (edge-padded)
neighbors whose value equals the center value — the self-indicator is part of
the summed stack — and 0 at background pixels; consequently the edge-candidate
mask `(score > 0) & (score < 8)` consists of the foreground pixels with at
most six matching neighbors, not of those whose neighbor-match count lies
strictly between 0 and 8. -/
theorem C4_focal_compare_score (h w : ℕ) (arr : ℕ → ℕ → ℤ) (i j : ℕ)
    (hi : i < h) (hj : j < w) :
    focal_compare h w arr i j
      = (if 0 < arr i j then neighborEqCount h w arr i j + 1 else 0)
    ∧ edge_candidate h w arr i j
      = (if 0 < arr i j ∧ neighborEqCount h w arr i j ≤ 6 then 1 else 0) := by
  have hfc := focal_compare_eval h w arr i j hi hj
  refine ⟨hfc, ?_⟩
  unfold edge_candidate
  rw [hfc]
  obtain ⟨hn0, _⟩ := neighborEqCount_bounds h w arr i j
  by_cases hfg : 0 < arr i j
  · simp only [hfg, if_true, true_and]
    by_cases h6 : neighborEqCount h w arr i j ≤ 6
    · rw [if_pos ⟨by omega, by omega⟩, if_pos h6]
    · rw [if_neg (fun hc => h6 (by omega)), if_neg h6]
  · simp [hfg]

/-- Claim C4 counterexample: on a 1×1 array with the single foreground value
5, all eight edge-padded neighbors replicate the center, so the claim's score
(the neighbor-match count) is 8 while `focal_compare` computes 9. -/
theorem C4_counterexample :
    focal_compare 1 1 (fun _ _ => (5 : ℤ)) 0 0 = 9
    ∧ spec_focal_score 1 1 (fun _ _ => (5 : ℤ)) 0 0 = 8
    ∧ focal_compare 1 1 (fun _ _ => (5 : ℤ)) 0 0
        ≠ spec_focal_score 1 1 (fun _ _ => (5 : ℤ)) 0 0 := by
  refine ⟨by decide, by decide, by decide⟩

/-- Witness for claim C4 at pixel (0,0) of a concrete 2×2 array with a single
foreground pixel. -/
theorem C4_focal_compare_score_witness :
    focal_compare 2 2 (fun a b => if a = 0 ∧ b = 0 then 1 else 0) 0 0
      = (if 0 < (fun a b : ℕ => if a = 0 ∧ b = 0 then (1 : ℤ) else 0) 0 0 then
          neighborEqCount 2 2 (fun a b => if a = 0 ∧ b = 0 then 1 else 0) 0 0 + 1 else 0)
    ∧ edge_candidate 2 2 (fun a b => if a = 0 ∧ b = 0 then 1 else 0) 0 0
      = (if 0 < (fun a b : ℕ => if a = 0 ∧ b = 0 then (1 : ℤ) else 0) 0 0
            ∧ neighborEqCount 2 2 (fun a b => if a = 0 ∧ b = 0 then 1 else 0) 0 0 ≤ 6 then
          1 else 0) :=
  C4_focal_compare_score 2 2 (fun a b => if a = 0 ∧ b = 0 then 1 else 0) 0 0
    (by decide) (by decide)

theorem focal_stat_sum_eval (h w : ℕ) (arr : ℕ → ℕ → ℤ) (i j : ℕ)
    (hi : i < h) (hj : j < w) :
    focal_stat h w arr List.sum i j
      = arr i j + ((nbrCoords h w i j).map (fun p => arr p.1 p.2)).sum := by
  simp only [focal_stat]
  rw [roll_slice_pad_eval h w arr 1 0 i j (i - 1) j hi hj (by decide) (by decide)
        (by omega) (by omega),
      roll_slice_pad_eval h w arr (-1) 0 i j (min (i + 1) (h - 1)) j hi hj (by decide)
        (by decide) (by omega) (by omega),
      roll_slice_pad_eval h w arr 0 1 i j i (j - 1) hi hj (by decide) (by decide)
        (by omega) (by omega),
      roll_slice_pad_eval h w arr 0 (-1) i j i (min (j + 1) (w - 1)) hi hj (by decide)
        (by decide) (by omega) (by omega),
      roll_slice_pad_eval h w arr 1 1 i j (i - 1) (j - 1) hi hj (by decide) (by decide)
        (by omega) (by omega),
      roll_slice_pad_eval h w arr 1 (-1) i j (i - 1) (min (j + 1) (w - 1)) hi hj
        (by decide) (by decide) (by omega) (by omega),
      roll_slice_pad_eval h w arr (-1) 1 i j (min (i + 1) (h - 1)) (j - 1) hi hj
        (by decide) (by decide) (by omega) (by omega),
      roll_slice_pad_eval h w arr (-1) (-1) i j (min (i + 1) (h - 1)) (min (j + 1) (w - 1))
        hi hj (by decide) (by decide) (by omega) (by omega)]
  simp only [nbrCoords, List.map_cons, List.map_nil, List.sum_cons, List.sum_nil]

/-- Claim C7, corrected.  The fragment-cleanup focal sum is taken over the
full 3×3 window — the center pixel's own crop indicator is part of the
stacked sum — not over the eight neighbors alone; a pixel whose window sum is
below 2 becomes background, a window sum in `[2, 4)` becomes the edge class,
and otherwise the pixel keeps its previous label (whatever it was, not
necessarily crop). -/
theorem C7_fragment_cleanup_window_sum (h w : ℕ) (labels : ℕ → ℕ → ℕ) (i j : ℕ)
    (hi : i < h) (hj : j < w) :
    fragment_cleanup h w labels i j
      = (if windowCropSum h w labels i j < 2 then 0
         else if windowCropSum h w labels i j < 4 then EDGE_CLASS else labels i j) := by
  simp only [fragment_cleanup]
  rw [focal_stat_sum_eval h w (fun a b => if labels a b = CROP_CLASS then 1 else 0) i j hi hj]
  simp only [windowCropSum]

/-- Claim C7 counterexample: a 3×3 array with two horizontally adjacent crop
pixels at (1,1) and (1,2).  At (1,1) the 8-neighbor sum of the crop indicator
is 1, so the claim demands background (sum < 2); the code's 9-cell focal sum
(center included) is 2, so the pixel actually becomes the edge class. -/
theorem C7_counterexample :
    fragment_cleanup 3 3 (fun a b => if a = 1 ∧ (b = 1 ∨ b = 2) then 1 else 0) 1 1
        = EDGE_CLASS
    ∧ spec_fragment_value 3 3 (fun a b => if a = 1 ∧ (b = 1 ∨ b = 2) then 1 else 0) 1 1 = 0
    ∧ fragment_cleanup 3 3 (fun a b => if a = 1 ∧ (b = 1 ∨ b = 2) then 1 else 0) 1 1
        ≠ spec_fragment_value 3 3 (fun a b => if a = 1 ∧ (b = 1 ∨ b = 2) then 1 else 0) 1 1 := by
  refine ⟨by decide, by decide, by decide⟩

/-- Witness for claim C7 at the center of a concrete 3×3 array. -/
theorem C7_fragment_cleanup_window_sum_witness :
    fragment_cleanup 3 3 (fun a b => if a = 1 ∧ b = 1 then 1 else 0) 1 1
      = (if windowCropSum 3 3 (fun a b => if a = 1 ∧ b = 1 then 1 else 0) 1 1 < 2 then 0
         else if windowCropSum 3 3 (fun a b => if a = 1 ∧ b = 1 then 1 else 0) 1 1 < 4 then
           EDGE_CLASS
         else (fun a b : ℕ => if a = 1 ∧ b = 1 then 1 else 0) 1 1) :=
  C7_fragment_cleanup_window_sum 3 3 (fun a b => if a = 1 ∧ b = 1 then 1 else 0) 1 1
    (by decide) (by decide)

theorem mem_gridPixels (h w i j : ℕ) : (i, j) ∈ gridPixels h w ↔ i < h ∧ j < w := by
  simp [gridPixels, List.mem_product]

theorem segVal_mem_uniqueVals (h w : ℕ) (seg : ℕ → ℕ → ℕ) (i j : ℕ)
    (hi : i < h) (hj : j < w) : seg i j ∈ uniqueVals h w seg := by
  rw [uniqueVals, List.mem_dedup, List.mem_map]
  exact ⟨(i, j), (mem_gridPixels h w i j).2 ⟨hi, hj⟩, rfl⟩

theorem uniqueVals_nodup (h w : ℕ) (seg : ℕ → ℕ → ℕ) : (uniqueVals h w seg).Nodup :=
  List.nodup_dedup _

theorem propsLabels_nodup (h w : ℕ) (seg : ℕ → ℕ → ℕ) : (propsLabels h w seg).Nodup :=
  (uniqueVals_nodup h w seg).filter _

theorem segVal_mem_propsLabels (h w : ℕ) (seg : ℕ → ℕ → ℕ) (i j : ℕ)
    (hi : i < h) (hj : j < w) (hne : seg i j ≠ 0) : seg i j ∈ propsLabels h w seg := by
  rw [propsLabels, List.mem_filter]
  exact ⟨segVal_mem_uniqueVals h w seg i j hi hj, by simpa using Nat.pos_of_ne_zero hne⟩

theorem foldl_seg_untouched {α : Type} (seg : ℕ → ℕ → ℕ)
    (step : (ℕ → ℕ → α) → ℕ → (ℕ → ℕ → α)) (F : ℕ → (ℕ → ℕ → α) → ℕ → ℕ → α)
    (L : List ℕ)
    (hstep : ∀ g l, l ∈ L → ∀ a b, step g l a b = if seg a b = l then F l g a b else g a b)
    (g0 : ℕ → ℕ → α) (i j : ℕ) (hnot : ¬ seg i j ∈ L) :
    (L.foldl step g0) i j = g0 i j := by
  induction L generalizing g0 with
  | nil => rfl
  | cons l L' ih =>
    rw [List.foldl_cons]
    rw [List.mem_cons, not_or] at hnot
    rw [ih (fun g l' hl' => hstep g l' (List.mem_cons_of_mem l hl')) (step g0 l) hnot.2,
      hstep g0 l (List.mem_cons_self l L'), if_neg hnot.1]

theorem foldl_seg_eval {α : Type} (seg : ℕ → ℕ → ℕ)
    (step : (ℕ → ℕ → α) → ℕ → (ℕ → ℕ → α)) (F : ℕ → (ℕ → ℕ → α) → ℕ → ℕ → α)
    (L : List ℕ)
    (hstep : ∀ g l, l ∈ L → ∀ a b, step g l a b = if seg a b = l then F l g a b else g a b)
    (hF : ∀ l g g' a b, seg a b = l → (∀ x y, seg x y = l → g x y = g' x y) →
      F l g a b = F l g' a b)
    (hnd : L.Nodup) (g0 : ℕ → ℕ → α) (i j : ℕ) (hmem : seg i j ∈ L) :
    (L.foldl step g0) i j = F (seg i j) g0 i j := by
  induction L generalizing g0 with
  | nil => exact absurd hmem (List.not_mem_nil _)
  | cons l L' ih =>
    rw [List.foldl_cons]
    rw [List.nodup_cons] at hnd
    have hstep' : ∀ g l', l' ∈ L' → ∀ a b,
        step g l' a b = if seg a b = l' then F l' g a b else g a b :=
      fun g l' hl' => hstep g l' (List.mem_cons_of_mem l hl')
    by_cases hc : seg i j = l
    · have hnot : ¬ seg i j ∈ L' := by rw [hc]; exact hnd.1
      rw [foldl_seg_untouched seg step F L' hstep' (step g0 l) i j hnot,
        hstep g0 l (List.mem_cons_self l L'), if_pos hc, hc]
    · have hmem' : seg i j ∈ L' := by
        rcases List.mem_cons.1 hmem with h | h
        · exact absurd h hc
        · exact h
      rw [ih hstep' hnd.2 (step g0 l) hmem']
      exact hF (seg i j) (step g0 l) g0 i j rfl
        (fun x y hxy => by
          rw [hstep g0 l (List.mem_cons_self l L'), if_neg (by rw [hxy]; exact hc)])

theorem sliver_step_canonical (h w : ℕ) (seg : ℕ → ℕ → ℕ) (g : ℕ → ℕ → ℕ) (l a b : ℕ) :
    sliver_step h w seg g l a b
      = if seg a b = l then (if thinBBox h w seg l then 0 else g a b) else g a b := by
  unfold sliver_step
  by_cases ht : thinBBox h w seg l
  · rw [if_pos ht]
    by_cases hs : seg a b = l <;> simp [hs, ht]
  · rw [if_neg ht]
    by_cases hs : seg a b = l <;> simp [hs, ht]

/-- Claim C6, corrected.  In `check_slivers` every pixel of a segment whose
bounding box is at most one pixel tall or wide is erased to background, but
the values finally re-imposed as `EDGE_CLASS` are the pixels whose value in
the passed `edges` array equals 1 — at the `create_dataset` call site that
array is the full pre-recode label array, so the pixels protected are the
pre-recode crop-class (value 1) pixels, while pixels that carried the edge
class (value 2) before recoding are not re-imposed and can end as
background. -/
theorem C6_check_slivers_pointwise (h w : ℕ) (labels edges seg : ℕ → ℕ → ℕ) (i j : ℕ)
    (hi : i < h) (hj : j < w) :
    check_slivers h w labels edges seg i j
      = (if edges i j = 1 then EDGE_CLASS
         else if seg i j ≠ 0 ∧ thinBBox h w seg (seg i j) then 0 else labels i j) := by
  simp only [check_slivers]
  by_cases he : edges i j = 1
  · rw [if_pos he, if_pos he]
  · rw [if_neg he, if_neg he]
    by_cases hz : seg i j = 0
    · have hnot : ¬ seg i j ∈ propsLabels h w seg := by
        intro hmem
        rw [propsLabels, List.mem_filter] at hmem
        simp [hz] at hmem
      rw [foldl_seg_untouched seg (sliver_step h w seg)
        (fun l g a b => if thinBBox h w seg l then 0 else g a b)
        (propsLabels h w seg)
        (fun g l _ a b => sliver_step_canonical h w seg g l a b)
        labels i j hnot]
      rw [if_neg (fun hc => hc.1 hz)]
    · rw [foldl_seg_eval seg (sliver_step h w seg)
        (fun l g a b => if thinBBox h w seg l then 0 else g a b)
        (propsLabels h w seg)
        (fun g l _ a b => sliver_step_canonical h w seg g l a b)
        (fun l g g' a b _ hagree => by
          by_cases ht : thinBBox h w seg l
          · simp [ht]
          · simp only [if_neg ht]
            exact hagree a b ‹seg a b = l›)
        (propsLabels_nodup h w seg) labels i j
        (segVal_mem_propsLabels h w seg i j hi hj hz)]
      by_cases ht : thinBBox h w seg (seg i j)
      · rw [if_pos ht, if_pos ⟨hz, ht⟩]
      · rw [if_neg ht, if_neg (fun hc => ht hc.2)]

/-- Claim C6 counterexample: on a 1×1 image whose single pixel carried the
edge class (value 2) before recoding and is background in the recoded labels,
`check_slivers` leaves the pixel at background — the pre-recode edge-class
pixel does not again carry the edge class; a pixel that carried the crop
class (value 1) before recoding, by contrast, is the one set to
`EDGE_CLASS`. -/
theorem C6_counterexample :
    check_slivers 1 1 (fun _ _ => 0) (fun _ _ => 2) (fun _ _ => 0) 0 0 = 0
    ∧ (fun _ _ : ℕ => 2) 0 0 = EDGE_CLASS
    ∧ (0 : ℕ) ≠ EDGE_CLASS
    ∧ check_slivers 1 1 (fun _ _ => 0) (fun _ _ => 1) (fun _ _ => 0) 0 0 = EDGE_CLASS := by
  refine ⟨by decide, by decide, by decide, by decide⟩

/-- Witness for claim C6: a concrete 2×2 image whose segment 1 occupies the
single top row (a sliver, bounding box one pixel tall); its pixels are erased
to background. -/
theorem C6_check_slivers_pointwise_witness :
    check_slivers 2 2 (fun _ _ => 1) (fun _ _ => 0)
        (fun a _ => if a = 0 then 1 else 0) 0 0
      = (if (fun _ _ : ℕ => (0 : ℕ)) 0 0 = 1 then EDGE_CLASS
         else if (fun a _ : ℕ => if a = 0 then 1 else 0) 0 0 ≠ 0
              ∧ thinBBox 2 2 (fun a _ => if a = 0 then 1 else 0)
                  ((fun a _ : ℕ => if a = 0 then 1 else 0) 0 0) then 0
         else (fun _ _ : ℕ => (1 : ℕ)) 0 0) :=
  C6_check_slivers_pointwise 2 2 (fun _ _ => 1) (fun _ _ => 0)
    (fun a _ => if a = 0 then 1 else 0) 0 0 (by decide) (by decide)

theorem pixelValues_congr (h w : ℕ) (seg : ℕ → ℕ → ℕ) (l : ℕ) (g g' : ℕ → ℕ → ℕ)
    (hagree : ∀ x y, seg x y = l → g x y = g' x y) :
    pixelValues h w seg g l = pixelValues h w seg g' l := by
  unfold pixelValues
  apply List.filterMap_congr
  intro p _
  by_cases hs : seg p.1 p.2 = l
  · rw [if_pos hs, if_pos hs, hagree p.1 p.2 hs]
  · rw [if_neg hs, if_neg hs]

theorem uniform_step_canonical (h w : ℕ) (seg : ℕ → ℕ → ℕ) (ct : ℕ → ℕ)
    (dt : String) (g : ℕ → ℕ → ℕ) (lab a b : ℕ) :
    uniform_step h w seg ct dt g lab a b
      = if seg a b = lab then
          (if ct lab = 0 then 0
           else if (1 / 2 : ℚ) < (ct lab : ℚ) / (segArea h w seg lab : ℚ) then
             (if dt = "boundaries" then CROP_CLASS else sci_mode (pixelValues h w seg g lab))
           else 0)
        else g a b := by
  unfold uniform_step
  by_cases h0 : ct lab = 0
  · rw [if_pos h0]
    show (if seg a b = lab then 0 else g a b) = _
    by_cases hs : seg a b = lab
    · rw [if_pos hs, if_pos hs, if_pos h0]
    · rw [if_neg hs, if_neg hs]
  · rw [if_neg h0]
    by_cases hp : (1 / 2 : ℚ) < (ct lab : ℚ) / (segArea h w seg lab : ℚ)
    · rw [if_pos hp]
      by_cases hb : dt = "boundaries"
      · rw [if_pos hb]
        show (if seg a b = lab then CROP_CLASS else g a b) = _
        by_cases hs : seg a b = lab
        · rw [if_pos hs, if_pos hs, if_neg h0, if_pos hp, if_pos hb]
        · rw [if_neg hs, if_neg hs]
      · rw [if_neg hb]
        show (if seg a b = lab then sci_mode (pixelValues h w seg g lab) else g a b) = _
        by_cases hs : seg a b = lab
        · rw [if_pos hs, if_pos hs, if_neg h0, if_pos hp, if_neg hb]
        · rw [if_neg hs, if_neg hs]
    · rw [if_neg hp]
      show (if seg a b = lab then 0 else g a b) = _
      by_cases hs : seg a b = lab
      · rw [if_pos hs, if_pos hs, if_neg h0, if_neg hp]
      · rw [if_neg hs, if_neg hs]

/-- Claim C5, corrected.  The connectivity mask handed to the component
labeller keeps exactly the pixels whose value in the passed `edges` array is
0 — at the `create_dataset` call site that array is the full pre-recode label
array, so both pre-recode crop-class (1) and edge-class (2) pixels are
excluded from connectivity, not only edge-class pixels.  Per component
(the mask background, label 0, included in the loop): a crop fraction of 0 or
at most one half turns the whole component into background; a fraction above
one half rewrites it to the crop class in 'boundaries' mode and otherwise to
the scipy statistical mode of all the component's current label values —
background zeros included and ties resolved to the smallest value — not the
mode of its nonzero labels only. -/
theorem C5_make_crops_uniform_pointwise (h w : ℕ) (labels edges seg : ℕ → ℕ → ℕ)
    (dt : String) (i j : ℕ) (hi : i < h) (hj : j < w) :
    make_crops_uniform h w labels edges dt seg i j
      = (if cropTotal h w labels seg (seg i j) = 0 then 0
         else if (1 / 2 : ℚ) < (cropTotal h w labels seg (seg i j) : ℚ)

             / (segArea h w seg (seg i j) : ℚ) then
           (if dt = "boundaries" then CROP_CLASS
            else sci_mode (pixelValues h w seg labels (seg i j)))
         else 0)
    ∧ (uniform_conn_mask edges i j = 0 ↔ edges i j ≠ 0) := by
  constructor
  · simp only [make_crops_uniform]
    rw [foldl_seg_eval seg (uniform_step h w seg (cropTotal h w labels seg) dt)
      (fun lab g a b =>
        if cropTotal h w labels seg lab = 0 then 0
        else if (1 / 2 : ℚ) < (cropTotal h w labels seg lab : ℚ)
            / (segArea h w seg lab : ℚ) then
          (if dt = "boundaries" then CROP_CLASS else sci_mode (pixelValues h w seg g lab))
        else 0)
      (uniqueVals h w seg)
      (fun g lab _ a b =>
        uniform_step_canonical h w seg (cropTotal h w labels seg) dt g lab a b)
      (fun lab g g' a b _ hagree => by
        simp only []
        rw [pixelValues_congr h w seg lab g g' hagree])
      (uniqueVals_nodup h w seg) labels i j
      (segVal_mem_uniqueVals h w seg i j hi hj)]
  · unfold uniform_conn_mask
    by_cases he : edges i j = 0 <;> simp [he]

/-- Claim C5 counterexample: a pixel whose pre-recode value is the crop class
1 (not the edge class) is excluded from connectivity by the code's mask
`edges == 0`, while the claim's mask (excluding only edge-class pixels) keeps
it; moreover the scipy mode used for the majority reassignment counts
background zeros and resolves ties to the smallest value, so a component with
values `[0,0,1,1,2]` would be rewritten to 0, not to a nonzero mode. -/
theorem C5_counterexample :
    uniform_conn_mask (fun _ _ => 1) 0 0 = 0
    ∧ spec_uniform_mask (fun _ _ => 1) 0 0 = 1
    ∧ (fun _ _ : ℕ => (1 : ℕ)) 0 0 ≠ EDGE_CLASS
    ∧ sci_mode [0, 0, 1, 1, 2] = 0 := by
  refine ⟨by decide, by decide, by decide, by decide⟩

/-- Witness for claim C5: a concrete 2×2 grid with no crop pixels at all;
the component of the single segment label 1 is rewritten to background, and
the connectivity-mask equivalence holds at the pixel. -/
theorem C5_make_crops_uniform_pointwise_witness :
    make_crops_uniform 2 2 (fun _ _ => 0) (fun _ _ => 0) "boundaries"
        (fun _ _ => 1) 0 0
      = (if cropTotal 2 2 (fun _ _ => 0) (fun _ _ => 1) ((fun _ _ : ℕ => (1 : ℕ)) 0 0) = 0
         then 0
         else if (1 / 2 : ℚ)
             < (cropTotal 2 2 (fun _ _ => 0) (fun _ _ => 1) ((fun _ _ : ℕ => (1 : ℕ)) 0 0) : ℚ)
               / (segArea 2 2 (fun _ _ => 1) ((fun _ _ : ℕ => (1 : ℕ)) 0 0) : ℚ) then
           (if "boundaries" = "boundaries" then CROP_CLASS
            else sci_mode (pixelValues 2 2 (fun _ _ => 1) (fun _ _ => 0)
              ((fun _ _ : ℕ => (1 : ℕ)) 0 0)))
         else 0)
    ∧ (uniform_conn_mask (fun _ _ => 0) 0 0 = 0 ↔ (fun _ _ : ℕ => (0 : ℕ)) 0 0 ≠ 0) :=
  C5_make_crops_uniform_pointwise 2 2 (fun _ _ => 0) (fun _ _ => 0) (fun _ _ => 1)
    "boundaries" 0 0 (by decide) (by decide)

theorem foldl_min_le (t : List ℕ) : ∀ a x : ℕ, x ∈ a :: t → t.foldl min a ≤ x := by
  induction t with
  | nil =>
    intro a x hx
    rw [List.mem_singleton] at hx
    rw [hx]
    exact le_refl a
  | cons b t' ih =>
    intro a x hx
    rw [List.foldl_cons]
    have hbase : t'.foldl min (min a b) ≤ min a b :=
      ih (min a b) (min a b) (List.mem_cons_self _ _)
    rcases List.mem_cons.1 hx with h1 | hx'
    · rw [h1]
      exact le_trans hbase (min_le_left a b)
    · rcases List.mem_cons.1 hx' with h2 | hx''
      · rw [h2]
        exact le_trans hbase (min_le_right a b)
      · exact ih (min a b) x (List.mem_cons_of_mem _ hx'')

theorem le_foldl_max (t : List ℕ) : ∀ a x : ℕ, x ∈ a :: t → x ≤ t.foldl max a := by
  induction t with
  | nil =>
    intro a x hx
    rw [List.mem_singleton] at hx
    rw [hx]
    exact le_refl a
  | cons b t' ih =>
    intro a x hx
    rw [List.foldl_cons]
    have hbase : max a b ≤ t'.foldl max (max a b) :=
      ih (max a b) (max a b) (List.mem_cons_self _ _)
    rcases List.mem_cons.1 hx with h1 | hx'
    · rw [h1]
      exact le_trans (le_max_left a b) hbase
    · rcases List.mem_cons.1 hx' with h2 | hx''
      · rw [h2]
        exact le_trans (le_max_right a b) hbase
      · exact ih (max a b) x (List.mem_cons_of_mem _ hx'')

theorem listMin_le_of_mem (l : List ℕ) (x : ℕ) (hx : x ∈ l) : listMin l ≤ x := by
  cases l with
  | nil => exact absurd hx (List.not_mem_nil x)
  | cons a t => exact foldl_min_le t a x hx

theorem le_listMax_of_mem (l : List ℕ) (x : ℕ) (hx : x ∈ l) : x ≤ listMax l := by
  cases l with
  | nil => exact absurd hx (List.not_mem_nil x)
  | cons a t => exact le_foldl_max t a x hx

theorem mem_segPixelsList (h w : ℕ) (seg : ℕ → ℕ → ℕ) (l a b : ℕ)
    (ha : a < h) (hb : b < w) (hs : seg a b = l) :
    (a, b) ∈ segPixelsList h w seg l := by
  rw [segPixelsList, List.mem_filter]
  exact ⟨(mem_gridPixels h w a b).2 ⟨ha, hb⟩, by simpa using hs⟩

theorem inBBox_of_pixel (h w : ℕ) (seg : ℕ → ℕ → ℕ) (l a b : ℕ)
    (ha : a < h) (hb : b < w) (hs : seg a b = l) :
    inBBox h w seg l a b := by
  have hmem := mem_segPixelsList h w seg l a b ha hb hs
  have hrow : a ∈ (segPixelsList h w seg l).map Prod.fst :=
    List.mem_map.2 ⟨(a, b), hmem, rfl⟩
  have hcol : b ∈ (segPixelsList h w seg l).map Prod.snd :=
    List.mem_map.2 ⟨(a, b), hmem, rfl⟩
  refine ⟨listMin_le_of_mem _ a hrow, ?_, listMin_le_of_mem _ b hcol, ?_⟩
  · exact Nat.lt_succ_of_le (le_listMax_of_mem _ a hrow)
  · exact Nat.lt_succ_of_le (le_listMax_of_mem _ b hcol)

theorem propsLabels_pos (h w : ℕ) (seg : ℕ → ℕ → ℕ) (l : ℕ)
    (hl : l ∈ propsLabels h w seg) : 0 < l := by
  rw [propsLabels, List.mem_filter] at hl
  simpa using hl.2

theorem norm_step_canonical (h w : ℕ) (seg : ℕ → ℕ → ℕ) (bd : ℕ → ℕ → ℚ)
    (hseg0 : ∀ a b, h ≤ a ∨ w ≤ b → seg a b = 0)
    (g : ℕ → ℕ → NpVal) (l : ℕ) (hl : l ∈ propsLabels h w seg) (a b : ℕ) :
    norm_step h w seg bd g l a b
      = if seg a b = l then
          (if thinBBox h w seg l then NpVal.val (1 / 10)
           else npdivV (g a b) (maxIntensity h w seg bd l))
        else g a b := by
  have hpos := propsLabels_pos h w seg l hl
  unfold norm_step
  rw [if_pos hpos]
  by_cases hs : seg a b = l
  · have hbnd : a < h ∧ b < w := by
      by_contra hcon
      have : seg a b = 0 := hseg0 a b (by omega)
      omega
    rw [if_pos ⟨inBBox_of_pixel h w seg l a b hbnd.1 hbnd.2 hs, hs⟩, if_pos hs]
  · rw [if_neg (fun hc => hs hc.2), if_neg hs]

theorem clip_nan_to_num_val (v : NpVal) :
    ∃ q, np_nan_to_num_one (npclip01 v) = NpVal.val q ∧ 0 ≤ q ∧ q ≤ 1 := by
  cases v with
  | val a =>
    exact ⟨min (max a 0) 1, rfl, le_min (le_max_right a 0) zero_le_one, min_le_right _ 1⟩
  | nan => exact ⟨1, rfl, zero_le_one, le_refl 1⟩
  | inf => exact ⟨1, rfl, zero_le_one, le_refl 1⟩
  | ninf => exact ⟨0, rfl, le_refl 0, zero_le_one⟩

/-- Claim C3, confirmed.  The field returned by
`normalize_boundary_distances` carries at every pixel a finite value in
`[0, 1]`; wherever the fold left a NaN or an infinity (degenerate division by
a zero maximal distance), the final value is exactly `1.0`; and every pixel of
a region whose bounding box is at most one pixel tall or wide carries the
fixed constant `0.1` rather than a normalized ratio.  The segment map (from
the external `nd_label`) is assumed zero outside the `h × w` grid, which is
how a finite array totalizes. -/
theorem C3_normalize_boundary_distances (h w : ℕ) (seg : ℕ → ℕ → ℕ)
    (bd : ℕ → ℕ → ℚ) (hseg0 : ∀ a b, h ≤ a ∨ w ≤ b → seg a b = 0)
    (i j : ℕ) (hi : i < h) (hj : j < w) :
    (∃ q, normalize_boundary_distances h w seg bd i j = NpVal.val q ∧ 0 ≤ q ∧ q ≤ 1)
    ∧ ((normalize_pre h w seg bd i j = NpVal.nan
        ∨ normalize_pre h w seg bd i j = NpVal.inf)
        → normalize_boundary_distances h w seg bd i j = NpVal.val 1)
    ∧ (seg i j ≠ 0 → thinBBox h w seg (seg i j)
        → normalize_boundary_distances h w seg bd i j = NpVal.val (1 / 10)) := by
  refine ⟨clip_nan_to_num_val _, ?_, ?_⟩
  · intro hcase
    unfold normalize_boundary_distances
    rcases hcase with hc | hc <;> rw [hc] <;> rfl
  · intro hz ht
    unfold normalize_boundary_distances
    have hpre : normalize_pre h w seg bd i j = NpVal.val (1 / 10) := by
      unfold normalize_pre
      rw [foldl_seg_eval seg (norm_step h w seg bd)
        (fun l g a b =>
          if thinBBox h w seg l then NpVal.val (1 / 10)
          else npdivV (g a b) (maxIntensity h w seg bd l))
        (propsLabels h w seg)
        (fun g l hl a b => norm_step_canonical h w seg bd hseg0 g l hl a b)
        (fun l g g' a b hab hagree => by
          by_cases hth : thinBBox h w seg l
          · simp [hth]
          · simp only [if_neg hth]
            rw [hagree a b hab])
        (propsLabels_nodup h w seg) (fun a b => NpVal.val (bd a b)) i j
        (segVal_mem_propsLabels h w seg i j hi hj hz)]
      rw [if_pos ht]
    rw [hpre]
    show NpVal.val (min (max (1 / 10 : ℚ) 0) 1) = NpVal.val (1 / 10)
    norm_num

/-- Witness for claim C3: a 1×2 grid whose single region is the one-pixel
segment 1 at the origin (bounding box one pixel tall and wide); the
normalized field carries the constant `0.1` there. -/
theorem C3_normalize_boundary_distances_witness :
    normalize_boundary_distances 1 2
        (fun a b => if a = 0 ∧ b = 0 then 1 else 0) (fun _ _ => 5) 0 0
      = NpVal.val (1 / 10) :=
  (C3_normalize_boundary_distances 1 2 (fun a b => if a = 0 ∧ b = 0 then 1 else 0)
      (fun _ _ => 5)
      (fun a b hab => by
        by_cases ha : a = 0 ∧ b = 0
        · omega
        · simp [ha])
      0 0 (by decide) (by decide)).2.2 (by decide) (by decide)
